import Mathlib

/-!
Shallow embedding of ipyrad/load/load.py: the versioned persistence and
schema-migration layer for Assembly/Sample project state.

Python dictionaries are modelled as ordered association lists
(`List (String × String)` and friends); the operations below mirror the
dictionary operations the source uses (key lookup, key-set difference,
update-or-append assignment).  The reference Assembly that the source
obtains by calling `ip.Assembly(...)` (the current-schema factory, defined
outside this file's source) is passed in as an explicit parameter: within
one program version every such call yields the same schema, so one value
stands for all of them.
-/

namespace IpyradLoad

/-- An ordered string-to-string mapping (a Python dict of scalars). -/
abbrev Dict := List (String × String)

/-- The list of keys of a dict, in insertion order. -/
def dkeys (d : Dict) : List String := d.map Prod.fst

/-- Python dict read access: the value stored at a key, if present. -/
def dlookup (k : String) : Dict → Option String
  | [] => none
  | p :: rest => if p.1 == k then some p.2 else dlookup k rest

/-- Python dict assignment: overwrite an existing key in place, else append. -/
def dinsert (k v : String) (d : Dict) : Dict :=
  if (dkeys d).contains k then
    d.map (fun p => if p.1 == k then (k, v) else p)
  else
    d ++ [(k, v)]

/-- Python set difference on key sets: the keys of the first list that are
absent from the second. -/
def keyDiff (a b : List String) : List String :=
  a.filter (fun k => !(b.contains k))

/-- A Sample child record (ipyrad Sample): its `stats` scalar record, its
`statsfiles` per-category scalar records, and the remaining schema-defined
scalar attributes (including `files`) collected in `other`. -/
structure Sample where
  stats : Dict
  statsfiles : List (String × Dict)
  other : Dict
  deriving DecidableEq, Repr

/-- The Assembly root entity; field names follow the source where Lean
allows it (`version` stands for `_version`, `hackersonly` for
`_hackersonly`, `ipcluster` for `_ipcluster`, `headers` for `_headers`).
The auxiliary payloads `populations`, `database`, `outfiles`, `barcodes`
are opaque to this layer and modelled as strings. -/
structure Assembly where
  name : String
  version : String
  dirs : Dict
  paramsdict : Dict
  hackersonly : Dict
  samples : List (String × Sample)
  populations : String
  database : String
  outfiles : String
  barcodes : String
  ipcluster : String
  headers : String
  deriving DecidableEq, Repr

/-- test_assembly (load.py lines 65-91): compares the loaded object `data`
against a freshly built current-schema assembly; reports drift when the
new paramsdict, or the new hackersonly dict, has a key the loaded object
lacks. -/
def test_assembly (new_assembly data : Assembly) : Bool :=
  let new_params := dkeys new_assembly.paramsdict
  let my_params := dkeys data.paramsdict
  let params_diff := keyDiff new_params my_params
  let result := if params_diff.isEmpty then false else true
  let my_hackerdict := dkeys data.hackersonly
  let new_hackerdict := dkeys new_assembly.hackersonly
  let hackerdict_diff := keyDiff new_hackerdict my_hackerdict
  if hackerdict_diff.isEmpty then result else true

/-- One step of update_assembly's carry-over loop (load.py lines 135-137):
for a loaded entry whose key is not removed, assign it into the new dict. -/
def carryStep (removed : List String) (acc : Dict) (p : String × String) : Dict :=
  if removed.contains p.1 then acc else dinsert p.1 p.2 acc

/-- update_assembly (load.py lines 95-141): overwrite the hackersonly dict
with the reference's, and, only when some current-schema parameter key is
missing from the loaded object (`added_params` non-empty), rebuild the
paramsdict seeded from the reference and carry over every non-removed
loaded entry.  The printed notices and the save side effect do not affect
the returned object. -/
def update_assembly (new_assembly data : Assembly) : Assembly :=
  let data1 := { data with hackersonly := new_assembly.hackersonly }
  let new_params := dkeys new_assembly.paramsdict
  let my_params := dkeys data1.paramsdict
  let removed_params := keyDiff my_params new_params
  let added_params := keyDiff new_params my_params
  if added_params.isEmpty then data1
  else
    { data1 with
      paramsdict :=
        data1.paramsdict.foldl (carryStep removed_params) new_assembly.paramsdict }

/-- load_assembly (load.py lines 20-61): try the literal name and the name
with ".assembly" appended, in order, with no early exit; each candidate
that deserializes replaces `data`, is drift-checked and possibly migrated.
A candidate whose open or deserialize fails is skipped (`fs` returns none
for it).  If no candidate ever bound `data`, the trailing return raises,
and the handler converts that into the not-found error naming the
originally requested name. -/
def load_assembly (new_assembly : Assembly) (fs : String → Option Assembly)
    (assemblyname : String) : Except String Assembly :=
  let locations := [assemblyname, assemblyname ++ ".assembly"]
  let data := locations.foldl
    (fun acc nm =>
      match fs nm with
      | some d =>
          some (if test_assembly new_assembly d then update_assembly new_assembly d else d)
      | none => acc)
    none
  match data with
  | some d => Except.ok d
  | none =>
      Except.error ("Attempting to load assembly. File not found: " ++ assemblyname)

/-! ### Basic dictionary lemmas -/

theorem contains_iff_mem (l : List String) (k : String) :
    l.contains k = true ↔ k ∈ l := by
  simp

theorem keyDiff_eq_nil_iff (a b : List String) :
    keyDiff a b = [] ↔ a ⊆ b := by
  simp [keyDiff, List.filter_eq_nil_iff, List.subset_def]

theorem mem_keyDiff (a b : List String) (k : String) :
    k ∈ keyDiff a b ↔ k ∈ a ∧ k ∉ b := by
  simp [keyDiff, List.mem_filter]

theorem dkeys_mapset (k v : String) (d : Dict) :
    dkeys (d.map (fun p => if p.1 == k then (k, v) else p)) = dkeys d := by
  induction d with
  | nil => rfl
  | cons p rest ih =>
      by_cases hp : p.1 = k
      · simp [dkeys, hp, beq_iff_eq] at *
        exact ih
      · simp [dkeys, hp, beq_iff_eq] at *
        exact ih

theorem dlookup_mapset_self (k v : String) (d : Dict) (h : k ∈ dkeys d) :
    dlookup k (d.map (fun p => if p.1 == k then (k, v) else p)) = some v := by
  induction d with
  | nil => simp [dkeys] at h
  | cons p rest ih =>
      simp only [List.map_cons]
      by_cases hp : (p.1 == k) = true
      · rw [if_pos hp]
        simp [dlookup]
      · rw [if_neg hp]
        have hk : k ∈ dkeys rest := by
          simp only [dkeys, List.map_cons, List.mem_cons] at h
          exact h.resolve_left (fun h1 => hp (by simp [h1]))
        simp only [dlookup]
        rw [if_neg hp]
        exact ih hk

theorem dlookup_mapset_ne (q k v : String) (d : Dict) (h : q ≠ k) :
    dlookup q (d.map (fun p => if p.1 == k then (k, v) else p)) = dlookup q d := by
  induction d with
  | nil => rfl
  | cons p rest ih =>
      simp only [List.map_cons]
      by_cases hp : (p.1 == k) = true
      · rw [if_pos hp]
        have hpk : p.1 = k := by simpa using hp
        have h1 : ¬(k == q) = true := by simpa using fun hkq => h hkq.symm
        have h2 : ¬(p.1 == q) = true := by simpa [hpk] using fun hkq => h hkq.symm
        simp only [dlookup]
        rw [if_neg h1, if_neg h2]
        exact ih
      · rw [if_neg hp]
        simp only [dlookup]
        by_cases hq : (p.1 == q) = true
        · rw [if_pos hq, if_pos hq]
        · rw [if_neg hq, if_neg hq]
          exact ih

theorem dlookup_append_last (k v : String) (d : Dict) (h : k ∉ dkeys d) :
    dlookup k (d ++ [(k, v)]) = some v := by
  induction d with
  | nil => simp [dlookup]
  | cons p rest ih =>
      have hp : p.1 ≠ k := by
        intro he
        exact h (by simp [dkeys, he])
      simp only [List.cons_append, dlookup]
      rw [if_neg (by simpa using hp)]
      exact ih (fun hm => h (by simp [dkeys] at hm ⊢; exact Or.inr hm))

theorem dlookup_append_ne (q k v : String) (d : Dict) (h : q ≠ k) :
    dlookup q (d ++ [(k, v)]) = dlookup q d := by
  induction d with
  | nil =>
      have h1 : ¬(k == q) = true := by simpa using fun hkq => h hkq.symm
      simp [dlookup, h1]
  | cons p rest ih =>
      simp only [List.cons_append, dlookup]
      by_cases hq : p.1 = q
      · simp [hq]
      · rw [if_neg (by simpa using hq), if_neg (by simpa using hq)]
        exact ih

theorem dkeys_dinsert_of_mem (k v : String) (d : Dict) (h : k ∈ dkeys d) :
    dkeys (dinsert k v d) = dkeys d := by
  unfold dinsert
  rw [if_pos ((contains_iff_mem _ _).2 h)]
  exact dkeys_mapset k v d

theorem dlookup_dinsert_self (k v : String) (d : Dict) :
    dlookup k (dinsert k v d) = some v := by
  unfold dinsert
  by_cases h : k ∈ dkeys d
  · rw [if_pos ((contains_iff_mem _ _).2 h)]
    exact dlookup_mapset_self k v d h
  · rw [if_neg (fun hc => h ((contains_iff_mem _ _).1 hc))]
    exact dlookup_append_last k v d h

theorem dlookup_dinsert_ne (q k v : String) (d : Dict) (h : q ≠ k) :
    dlookup q (dinsert k v d) = dlookup q d := by
  unfold dinsert
  by_cases hc : (dkeys d).contains k
  · rw [if_pos hc]; exact dlookup_mapset_ne q k v d h
  · rw [if_neg hc]; exact dlookup_append_ne q k v d h

theorem dlookup_mem (k : String) (d : Dict) (h : k ∈ dkeys d) :
    ∃ v, dlookup k d = some v ∧ (k, v) ∈ d := by
  induction d with
  | nil => simp [dkeys] at h
  | cons p rest ih =>
      by_cases hp : p.1 = k
      · subst hp
        refine ⟨p.2, by simp [dlookup], ?_⟩
        simp
      · have hk : k ∈ dkeys rest := by
          simp only [dkeys, List.map_cons, List.mem_cons] at h
          exact h.resolve_left (fun h1 => hp h1.symm)
        rcases ih hk with ⟨v, hv, hm⟩
        refine ⟨v, ?_, List.mem_cons_of_mem _ hm⟩
        simp only [dlookup]
        rw [if_neg (by simpa using hp)]
        exact hv

/-! ### The carry-over fold of update_assembly -/

theorem carry_keys (removed : List String) (entries : List (String × String))
    (acc : Dict)
    (h : ∀ p ∈ entries, removed.contains p.1 = false → p.1 ∈ dkeys acc) :
    dkeys (entries.foldl (carryStep removed) acc) = dkeys acc := by
  induction entries generalizing acc with
  | nil => rfl
  | cons p rest ih =>
      simp only [List.foldl_cons]
      by_cases hr : removed.contains p.1 = true
      · have hstep : carryStep removed acc p = acc := by
          unfold carryStep
          rw [if_pos hr]
        rw [hstep]
        exact ih acc (fun q hq hq2 => h q (List.mem_cons_of_mem _ hq) hq2)
      · have hb : removed.contains p.1 = false := by simpa using hr
        have hmem : p.1 ∈ dkeys acc := h p (List.mem_cons_self _ _) hb
        have hstep : carryStep removed acc p = dinsert p.1 p.2 acc := by
          unfold carryStep
          rw [if_neg hr]
        have hkeys : dkeys (dinsert p.1 p.2 acc) = dkeys acc :=
          dkeys_dinsert_of_mem _ _ _ hmem
        rw [hstep,
          ih (dinsert p.1 p.2 acc)
            (fun q hq hq2 => by
              rw [hkeys]
              exact h q (List.mem_cons_of_mem _ hq) hq2),
          hkeys]

theorem carry_skip (removed : List String) (entries : List (String × String))
    (acc : Dict) (k : String)
    (h : ∀ p ∈ entries, p.1 ≠ k ∨ removed.contains p.1 = true) :
    dlookup k (entries.foldl (carryStep removed) acc) = dlookup k acc := by
  induction entries generalizing acc with
  | nil => rfl
  | cons p rest ih =>
      simp only [List.foldl_cons]
      have htail : ∀ q ∈ rest, q.1 ≠ k ∨ removed.contains q.1 = true :=
        fun q hq => h q (List.mem_cons_of_mem _ hq)
      by_cases hr : removed.contains p.1 = true
      · have hstep : carryStep removed acc p = acc := by
          unfold carryStep
          rw [if_pos hr]
        rw [hstep]
        exact ih acc htail
      · have hne : p.1 ≠ k := (h p (List.mem_cons_self _ _)).resolve_right hr
        have hstep : carryStep removed acc p = dinsert p.1 p.2 acc := by
          unfold carryStep
          rw [if_neg hr]
        rw [hstep, ih _ htail]
        exact dlookup_dinsert_ne k p.1 p.2 acc (fun he => hne he.symm)

theorem carry_found (removed : List String) (entries : List (String × String))
    (acc : Dict) (k v : String) (hnd : (entries.map Prod.fst).Nodup)
    (hm : (k, v) ∈ entries) (hr : removed.contains k = false) :
    dlookup k (entries.foldl (carryStep removed) acc) = some v := by
  induction entries generalizing acc with
  | nil => cases hm
  | cons p rest ih =>
      simp only [List.foldl_cons]
      have hnd1 : p.1 ∉ rest.map Prod.fst := by
        simp only [List.map_cons, List.nodup_cons] at hnd
        exact hnd.1
      have hnd2 : (rest.map Prod.fst).Nodup := by
        simp only [List.map_cons, List.nodup_cons] at hnd
        exact hnd.2
      rcases List.mem_cons.1 hm with he | hrest
      · have hp1 : p.1 = k := (congrArg Prod.fst he).symm
        have hv : p.2 = v := (congrArg Prod.snd he).symm
        have hstep : carryStep removed acc p = dinsert k v acc := by
          unfold carryStep
          rw [hp1, hv, hr]
          simp
        have hskip : ∀ q ∈ rest, q.1 ≠ k ∨ removed.contains q.1 = true := by
          intro q hq
          left
          intro hqk
          exact hnd1 (hp1 ▸ hqk ▸ List.mem_map_of_mem Prod.fst hq)
        rw [hstep, carry_skip removed rest _ k hskip, dlookup_dinsert_self]
      · have hp1 : p.1 ≠ k := by
          intro he2
          exact hnd1 (he2 ▸ (by simpa using List.mem_map_of_mem Prod.fst hrest))
        exact ih _ hnd2 hrest

/-! ### Characterizations of test_assembly and update_assembly -/

theorem test_assembly_eq_true_iff (new_assembly data : Assembly) :
    test_assembly new_assembly data = true ↔
      (¬ dkeys new_assembly.paramsdict ⊆ dkeys data.paramsdict ∨
       ¬ dkeys new_assembly.hackersonly ⊆ dkeys data.hackersonly) := by
  rw [← keyDiff_eq_nil_iff, ← keyDiff_eq_nil_iff]
  unfold test_assembly
  by_cases h1 :
      keyDiff (dkeys new_assembly.paramsdict) (dkeys data.paramsdict) = [] <;>
    by_cases h2 :
        keyDiff (dkeys new_assembly.hackersonly) (dkeys data.hackersonly) = [] <;>
      simp [h1, h2, List.isEmpty_iff]

theorem update_assembly_hackers (new_assembly data : Assembly) :
    (update_assembly new_assembly data).hackersonly = new_assembly.hackersonly := by
  unfold update_assembly
  by_cases h :
      (keyDiff (dkeys new_assembly.paramsdict) (dkeys data.paramsdict)).isEmpty <;>
    simp [h]

theorem update_assembly_params_of_no_added (new_assembly data : Assembly)
    (h : keyDiff (dkeys new_assembly.paramsdict) (dkeys data.paramsdict) = []) :
    (update_assembly new_assembly data).paramsdict = data.paramsdict := by
  unfold update_assembly
  simp [h]

theorem update_assembly_params_of_added (new_assembly data : Assembly)
    (h : keyDiff (dkeys new_assembly.paramsdict) (dkeys data.paramsdict) ≠ []) :
    (update_assembly new_assembly data).paramsdict =
      data.paramsdict.foldl
        (carryStep (keyDiff (dkeys data.paramsdict) (dkeys new_assembly.paramsdict)))
        new_assembly.paramsdict := by
  unfold update_assembly
  have hb :
      (keyDiff (dkeys new_assembly.paramsdict) (dkeys data.paramsdict)).isEmpty
        = false := by
    simpa [List.isEmpty_iff] using h
  simp [hb]

theorem update_assembly_keys_of_added (new_assembly data : Assembly)
    (h : keyDiff (dkeys new_assembly.paramsdict) (dkeys data.paramsdict) ≠ []) :
    dkeys (update_assembly new_assembly data).paramsdict
      = dkeys new_assembly.paramsdict := by
  rw [update_assembly_params_of_added new_assembly data h]
  apply carry_keys
  intro p hp hrem
  have hmy : p.1 ∈ dkeys data.paramsdict := List.mem_map_of_mem Prod.fst hp
  by_contra hnew
  have hmem2 : p.1 ∈ keyDiff (dkeys data.paramsdict) (dkeys new_assembly.paramsdict) :=
    (mem_keyDiff _ _ _).2 ⟨hmy, hnew⟩
  have hc := (contains_iff_mem _ _).2 hmem2
  rw [hrem] at hc
  exact Bool.false_ne_true hc

theorem update_assembly_superset (new_assembly data : Assembly) :
    dkeys new_assembly.paramsdict
      ⊆ dkeys (update_assembly new_assembly data).paramsdict := by
  by_cases h : keyDiff (dkeys new_assembly.paramsdict) (dkeys data.paramsdict) = []
  · rw [update_assembly_params_of_no_added new_assembly data h]
    exact (keyDiff_eq_nil_iff _ _).1 h
  · rw [update_assembly_keys_of_added new_assembly data h]
    exact fun x hx => hx

theorem test_assembly_false_parts (new_assembly data : Assembly)
    (h : test_assembly new_assembly data = false) :
    dkeys new_assembly.paramsdict ⊆ dkeys data.paramsdict ∧
    dkeys new_assembly.hackersonly ⊆ dkeys data.hackersonly := by
  have h2 : ¬(¬ dkeys new_assembly.paramsdict ⊆ dkeys data.paramsdict ∨
      ¬ dkeys new_assembly.hackersonly ⊆ dkeys data.hackersonly) := by
    rw [← test_assembly_eq_true_iff]
    simp [h]
  rw [not_or, not_not, not_not] at h2
  exact h2

/-- The per-candidate processing done inside load_assembly's loop body:
drift-check the deserialized object and migrate it when drift is found. -/
theorem processed_superset (new_assembly data : Assembly) :
    dkeys new_assembly.paramsdict ⊆
      dkeys ((if test_assembly new_assembly data then
        update_assembly new_assembly data else data).paramsdict) := by
  by_cases h : test_assembly new_assembly data = true
  · rw [if_pos h]
    exact update_assembly_superset new_assembly data
  · rw [if_neg h]
    exact (test_assembly_false_parts new_assembly data (by simpa using h)).1

/-- Evaluation of load_assembly's two-candidate loop: the loop has no early
exit, so the extension-suffixed candidate, when it opens, determines the
result; otherwise the literal candidate does; otherwise the not-found
error is raised. -/
theorem load_assembly_eval (new_assembly : Assembly) (fs : String → Option Assembly)
    (nm : String) :
    load_assembly new_assembly fs nm =
      match fs (nm ++ ".assembly") with
      | some x =>
          Except.ok (if test_assembly new_assembly x then
            update_assembly new_assembly x else x)
      | none =>
          match fs nm with
          | some y =>
              Except.ok (if test_assembly new_assembly y then
                update_assembly new_assembly y else y)
          | none =>
              Except.error ("Attempting to load assembly. File not found: " ++ nm) := by
  unfold load_assembly
  cases h2 : fs (nm ++ ".assembly") <;> cases h1 : fs nm <;> simp [h1, h2]

/-! ### Concrete fixtures -/

/-- A small current-schema reference assembly (what `ip.Assembly(...)`
returns inside this layer). -/
def ref0 : Assembly :=
  { name := "ref", version := "0.7", dirs := [("project", "/tmp")],
    paramsdict := [("a", "1"), ("b", "2")], hackersonly := [("h", "0")],
    samples := [], populations := "", database := "", outfiles := "",
    barcodes := "", ipcluster := "live", headers := "hdr" }

/-- A loaded object carrying an extra parameter key unknown to the current
schema, but missing none of the schema keys. -/
def extraKeyLoaded : Assembly :=
  { ref0 with
    name := "old",
    paramsdict := [("a", "x"), ("b", "y"), ("extra", "z")] }

/-- A filesystem with one binary snapshot under the literal name. -/
def extraKeyFs : String → Option Assembly :=
  fun n => if n == "proj" then some extraKeyLoaded else none

/-- A loaded object missing the schema key "b". -/
def missingKeyLoaded : Assembly :=
  { ref0 with name := "old", paramsdict := [("a", "x")] }

def firstLoaded : Assembly := { ref0 with name := "first" }

def secondLoaded : Assembly := { ref0 with name := "second" }

/-- A filesystem where both the literal candidate and the suffixed
candidate open successfully, holding distinct objects. -/
def twoCandidateFs : String → Option Assembly :=
  fun n =>
    if n == "proj" then some firstLoaded
    else if n == "proj.assembly" then some secondLoaded
    else none

/-- A filesystem with no snapshot at all. -/
def emptyFs : String → Option Assembly := fun _ => none

/-! ### Claim theorems for the binary-snapshot path -/

/-- C3: test_assembly returns true exactly when the reference paramsdict
has a key the loaded object lacks, or the reference hackersonly dict has a
key the loaded object lacks; a key present only in the loaded object never
by itself makes it return true. -/
theorem c3_differ_reports_additions_only (new_assembly data : Assembly) :
    test_assembly new_assembly data = true ↔
      (¬ dkeys new_assembly.paramsdict ⊆ dkeys data.paramsdict ∨
       ¬ dkeys new_assembly.hackersonly ⊆ dkeys data.hackersonly) :=
  test_assembly_eq_true_iff new_assembly data

/-- C10: migration is a fixpoint of the drift check: after update_assembly
the hackersonly dict is the reference's and every current-schema parameter
key is present, so test_assembly reports no drift. -/
theorem c10_update_fixpoint (new_assembly data : Assembly) :
    test_assembly new_assembly (update_assembly new_assembly data) = false := by
  have hh := update_assembly_hackers new_assembly data
  have hp := update_assembly_superset new_assembly data
  cases hres : test_assembly new_assembly (update_assembly new_assembly data)
  · rfl
  · exfalso
    rcases (test_assembly_eq_true_iff _ _).1 hres with h1 | h2
    · exact h1 hp
    · rw [hh] at h2
      exact h2 (fun x hx => hx)

/-- C4: when at least one current-schema parameter key is missing from the
loaded object, the Differ reports drift and the Migrator rebuilds the
paramsdict to exactly the current key set: same-named keys keep the loaded
value, keys the loaded object lacked hold the reference default, and
removed keys are absent. -/
theorem c4_migrator_rebuild (new_assembly data : Assembly)
    (hnd : (dkeys data.paramsdict).Nodup)
    (hadded : keyDiff (dkeys new_assembly.paramsdict) (dkeys data.paramsdict) ≠ []) :
    test_assembly new_assembly data = true ∧
    dkeys (update_assembly new_assembly data).paramsdict
      = dkeys new_assembly.paramsdict ∧
    (∀ k, k ∈ dkeys data.paramsdict → k ∈ dkeys new_assembly.paramsdict →
      dlookup k (update_assembly new_assembly data).paramsdict
        = dlookup k data.paramsdict) ∧
    (∀ k, k ∉ dkeys data.paramsdict →
      dlookup k (update_assembly new_assembly data).paramsdict
        = dlookup k new_assembly.paramsdict) ∧
    (∀ k, k ∈ keyDiff (dkeys data.paramsdict) (dkeys new_assembly.paramsdict) →
      k ∉ dkeys (update_assembly new_assembly data).paramsdict) := by
  refine ⟨?_, update_assembly_keys_of_added _ _ hadded, ?_, ?_, ?_⟩
  · rw [test_assembly_eq_true_iff]
    left
    rw [← keyDiff_eq_nil_iff]
    exact hadded
  · intro k hkd hkn
    rcases dlookup_mem k data.paramsdict hkd with ⟨v, hv, hmem⟩
    have hnotrem : k ∉ keyDiff (dkeys data.paramsdict) (dkeys new_assembly.paramsdict) :=
      fun hmem2 => ((mem_keyDiff _ _ _).1 hmem2).2 hkn
    have hrf :
        (keyDiff (dkeys data.paramsdict) (dkeys new_assembly.paramsdict)).contains k
          = false := by
      cases hc :
          (keyDiff (dkeys data.paramsdict) (dkeys new_assembly.paramsdict)).contains k
      · rfl
      · exact absurd ((contains_iff_mem _ _).1 hc) hnotrem
    rw [update_assembly_params_of_added _ _ hadded,
      carry_found _ _ _ k v hnd hmem hrf, hv]
  · intro k hkd
    rw [update_assembly_params_of_added _ _ hadded]
    apply carry_skip
    intro p hp
    left
    intro hpk
    exact hkd (hpk ▸ List.mem_map_of_mem Prod.fst hp)
  · intro k hk
    rw [update_assembly_keys_of_added _ _ hadded]
    exact ((mem_keyDiff _ _ _).1 hk).2

theorem c4_witness :
    ((dkeys missingKeyLoaded.paramsdict).Nodup ∧
     keyDiff (dkeys ref0.paramsdict) (dkeys missingKeyLoaded.paramsdict) ≠ []) ∧
    test_assembly ref0 missingKeyLoaded = true ∧
    dkeys (update_assembly ref0 missingKeyLoaded).paramsdict
      = dkeys ref0.paramsdict :=
  ⟨⟨by decide, by decide⟩,
   (c4_migrator_rebuild ref0 missingKeyLoaded (by decide) (by decide)).1,
   (c4_migrator_rebuild ref0 missingKeyLoaded (by decide) (by decide)).2.1⟩

/-- C1 counterexample: a loaded object whose paramsdict carries the extra
key "extra" while missing no current-schema key is returned by
load_assembly untouched (no drift is reported, so no migration runs), and
its key set is strictly larger than the current schema's. -/
theorem c1_counterexample :
    load_assembly ref0 extraKeyFs "proj" = Except.ok extraKeyLoaded ∧
    "extra" ∈ dkeys extraKeyLoaded.paramsdict ∧
    "extra" ∉ dkeys ref0.paramsdict :=
  ⟨rfl, by decide, by decide⟩

/-- C1 (amended): every Assembly returned by a successful binary load has
every current-schema parameter key present in its paramsdict (the schema
key set is a subset of the returned key set); equality can fail, since an
extra key persists whenever no schema key was missing. -/
theorem c1_amended_schema_keys_present (new_assembly : Assembly)
    (fs : String → Option Assembly) (assemblyname : String) (d : Assembly)
    (h : load_assembly new_assembly fs assemblyname = Except.ok d) :
    dkeys new_assembly.paramsdict ⊆ dkeys d.paramsdict := by
  rw [load_assembly_eval] at h
  cases h2 : fs (assemblyname ++ ".assembly") with
  | some x =>
      rw [h2] at h
      have h3 :
          (if test_assembly new_assembly x then update_assembly new_assembly x
            else x) = d := by
        injection h
      rw [← h3]
      exact processed_superset new_assembly x
  | none =>
      rw [h2] at h
      cases h1 : fs assemblyname with
      | some y =>
          rw [h1] at h
          have h3 :
              (if test_assembly new_assembly y then update_assembly new_assembly y
                else y) = d := by
            injection h
          rw [← h3]
          exact processed_superset new_assembly y
      | none =>
          rw [h1] at h
          exact absurd h (by simp)

theorem c1_witness :
    load_assembly ref0 extraKeyFs "proj" = Except.ok extraKeyLoaded ∧
    dkeys ref0.paramsdict ⊆ dkeys extraKeyLoaded.paramsdict :=
  ⟨rfl, c1_amended_schema_keys_present ref0 extraKeyFs "proj" extraKeyLoaded rfl⟩

/-- C2 counterexample: when both the literal name and the suffixed name
open successfully, load_assembly returns the object from the second
candidate, not the first: the loop has no early exit, so the last
successful candidate wins. -/
theorem c2_counterexample :
    twoCandidateFs "proj" = some firstLoaded ∧
    load_assembly ref0 twoCandidateFs "proj" = Except.ok secondLoaded ∧
    firstLoaded ≠ secondLoaded :=
  ⟨rfl, rfl, by decide⟩

/-- C2 (amended): candidates are tried in order with no early exit, so the
LAST candidate that opens successfully is used: whenever the suffixed
candidate opens, its object (drift-checked and possibly migrated)
is the result, regardless of the literal candidate. -/
theorem c2_amended_last_candidate_wins (new_assembly : Assembly)
    (fs : String → Option Assembly) (assemblyname : String) (d2 : Assembly)
    (h2 : fs (assemblyname ++ ".assembly") = some d2) :
    load_assembly new_assembly fs assemblyname =
      Except.ok (if test_assembly new_assembly d2 then
        update_assembly new_assembly d2 else d2) := by
  rw [load_assembly_eval, h2]

theorem c2_witness :
    twoCandidateFs ("proj" ++ ".assembly") = some secondLoaded ∧
    load_assembly ref0 twoCandidateFs "proj" =
      Except.ok (if test_assembly ref0 secondLoaded then
        update_assembly ref0 secondLoaded else secondLoaded) :=
  ⟨rfl, c2_amended_last_candidate_wins ref0 twoCandidateFs "proj" secondLoaded rfl⟩

/-- C7: when no binary candidate opens, load_assembly raises the single
not-found error whose message names exactly the originally requested name,
never an internal candidate path. -/
theorem c7_notfound_names_original (new_assembly : Assembly)
    (fs : String → Option Assembly) (assemblyname : String)
    (h1 : fs assemblyname = none) (h2 : fs (assemblyname ++ ".assembly") = none) :
    load_assembly new_assembly fs assemblyname =
      Except.error ("Attempting to load assembly. File not found: " ++ assemblyname) := by
  rw [load_assembly_eval, h2, h1]

theorem c7_witness :
    emptyFs "missing_project" = none ∧
    load_assembly ref0 emptyFs "missing_project" =
      Except.error ("Attempting to load assembly. File not found: " ++ "missing_project") :=
  ⟨rfl, c7_notfound_names_original ref0 emptyFs "missing_project" rfl rfl⟩

/-! ### save_json: the structured text save path -/

/-- A JSON value as produced by this layer's save path: strings, arrays of
strings (key lists), and key-ordered objects. -/
inductive JVal where
  | s (v : String)
  | arr (vs : List String)
  | obj (es : List (String × JVal))

/-- Serialize a scalar dict as a JSON object. -/
def dictToJ (d : Dict) : List (String × JVal) :=
  d.map (fun p => (p.1, JVal.s p.2))

/-- Sample._to_fulldict: the full field dump of a Sample (stats,
statsfiles, and all remaining attributes). -/
def Sample.toFulldict (s : Sample) : JVal :=
  JVal.obj
    ([("stats", JVal.obj (dictToJ s.stats)),
      ("statsfiles",
        JVal.obj (s.statsfiles.map (fun p => (p.1, JVal.obj (dictToJ p.2)))))]
      ++ dictToJ s.other)

/-- The assembly section of save_json (load.py lines 153-163): the fixed
datadict projection, in order.  The `_ipcluster` and `_headers` attributes
are deliberately not included, and `samples` is reduced to its key list. -/
def save_json_datadict (data : Assembly) : List (String × JVal) :=
  [("_version", JVal.s data.version),
   ("name", JVal.s data.name),
   ("dirs", JVal.obj (dictToJ data.dirs)),
   ("paramsdict", JVal.obj (dictToJ data.paramsdict)),
   ("samples", JVal.arr (data.samples.map Prod.fst)),
   ("populations", JVal.s data.populations),
   ("database", JVal.s data.database),
   ("outfiles", JVal.s data.outfiles),
   ("barcodes", JVal.s data.barcodes)]

/-- save_json's document (load.py lines 145-176): exactly two top-level
sections, assembly and samples; the samples section maps each sample name
to its full field dump. -/
def save_json (data : Assembly) : JVal :=
  JVal.obj
    [("assembly", JVal.obj (save_json_datadict data)),
     ("samples",
       JVal.obj (data.samples.map (fun p => (p.1, Sample.toFulldict p.2))))]

/-- Association lookup in a JSON-like key-value list. -/
def jassoc {α : Type} (k : String) : List (String × α) → Option α
  | [] => none
  | p :: rest => if p.1 == k then some p.2 else jassoc k rest

/-- The key list of a JSON object (empty for non-objects). -/
def JVal.objKeys : JVal → List String
  | JVal.obj es => es.map Prod.fst
  | _ => []

/-- The value stored under a key of a JSON object. -/
def JVal.getKey (j : JVal) (k : String) : Option JVal :=
  match j with
  | JVal.obj es => jassoc k es
  | _ => none

/-- C9: the save_json document has exactly two top-level keys, assembly
and samples; the assembly section carries the fixed nine-field projection,
hence neither the live cluster handle `_ipcluster` nor the reconstructible
`_headers` field, and its samples entry is just the key list; the samples
section maps each sample name to its full Sample field dump. -/
theorem c9_save_json_shape (data : Assembly) :
    (save_json data).objKeys = ["assembly", "samples"] ∧
    ((save_json data).getKey "assembly").map JVal.objKeys =
      some ["_version", "name", "dirs", "paramsdict", "samples",
        "populations", "database", "outfiles", "barcodes"] ∧
    "_ipcluster" ∉ (save_json_datadict data).map Prod.fst ∧
    "_headers" ∉ (save_json_datadict data).map Prod.fst ∧
    jassoc "samples" (save_json_datadict data) =
      some (JVal.arr (data.samples.map Prod.fst)) ∧
    (save_json data).getKey "samples" =
      some (JVal.obj (data.samples.map (fun p => (p.1, Sample.toFulldict p.2)))) := by
  refine ⟨rfl, rfl, ?_, ?_, rfl, rfl⟩ <;> simp [save_json_datadict]

/-- One write attempt's outcome inside save_json's retry loop: either an
interrupt strikes after the attempt has written the first `chars`
characters of the dump (the open in mode w truncated the file first), or
the attempt completes. -/
inductive WriteOutcome where
  | interrupted (chars : Nat)
  | completed
  deriving DecidableEq, Repr

/-- save_json's protected write (load.py lines 181-190): loop until a
write attempt completes; an interrupt raised during an attempt is caught
inside the loop (leaving the file holding a partial prefix) and the whole
write is retried.  The second argument is the trace of attempt outcomes,
the third the initial file content; the result is the final file content
once a completed attempt ends the loop, or none when the trace runs out
with the loop still retrying.  The return type has no exception
alternative: the loop body turns every interrupt into a retry, so no
interrupt propagates to the caller. -/
def save_json_write (fulldump : String) :
    List WriteOutcome → Option String → Option String
  | [], _ => none
  | WriteOutcome.interrupted chars :: rest, _ =>
      save_json_write fulldump rest (some (fulldump.take chars))
  | WriteOutcome.completed :: _, _ => some fulldump

/-- C8: whenever some attempt in the trace completes, the save loop
terminates with the file holding exactly the full dump — never a partial
or missing file — and no interrupt reaches the caller, whatever the file
held before and however many interrupts preceded the completion. -/
theorem c8_interrupted_write_retries (fulldump : String)
    (outcomes : List WriteOutcome) (file : Option String)
    (h : WriteOutcome.completed ∈ outcomes) :
    save_json_write fulldump outcomes file = some fulldump := by
  induction outcomes generalizing file with
  | nil => cases h
  | cons o rest ih =>
      cases o with
      | interrupted chars =>
          have h2 : WriteOutcome.completed ∈ rest := by
            rcases List.mem_cons.1 h with h1 | h2
            · cases h1
            · exact h2
          exact ih _ h2
      | completed => rfl

theorem c8_witness :
    WriteOutcome.completed ∈
      [WriteOutcome.interrupted 3, WriteOutcome.completed] ∧
    save_json_write "fulldump"
      [WriteOutcome.interrupted 3, WriteOutcome.completed] none
      = some "fulldump" :=
  ⟨by decide,
   c8_interrupted_write_retries "fulldump"
     [WriteOutcome.interrupted 3, WriteOutcome.completed] none (by decide)⟩

/-! ### load_json: the structured text load/reconcile path -/

/-- The parsed form of one Sample record in the samples section: its
stats record, its statsfiles records, and every remaining dumped field. -/
structure SampleDoc where
  stats : Dict
  statsfiles : List (String × Dict)
  other : Dict
  deriving DecidableEq, Repr

/-- The parsed assembly section, when it is a proper mapping, projected
onto the fixed fields save_json wrote. -/
structure AssemblyDoc where
  name : String
  version : String
  dirs : Dict
  paramsdict : Dict
  samples : List String
  populations : String
  database : String
  outfiles : String
  barcodes : String
  deriving DecidableEq, Repr

/-- The assembly section of a parsed document: either a proper mapping, or
a malformed value on which popping a key raises AttributeError. -/
inductive JAssemblySection where
  | proper (a : AssemblyDoc)
  | malformed
  deriving DecidableEq, Repr

/-- A whole parsed text document: the two top-level sections. -/
structure JDoc where
  assembly : JAssemblySection
  samples : List (String × SampleDoc)
  deriving DecidableEq, Repr

/-- What opening and parsing one candidate path yields: open raises
IOError (missing), the content fails json.loads (unparsable), or a parsed
document. -/
inductive ReadResult where
  | missing
  | unparsable
  | parsed (d : JDoc)
  deriving DecidableEq, Repr

/-- The Python exceptions the text loader can surface. -/
inductive PyError where
  | unboundLocalError (v : String)
  | valueError
  | ipyradWarningExit (msg : String)
  | indexError
  | keyError (k : String)
  deriving DecidableEq, Repr

/-- Python dict subscript access: KeyError when the key is absent. -/
def jfetch {α : Type} (k : String) (l : List (String × α)) : Except PyError α :=
  match jassoc k l with
  | some v => Except.ok v
  | none => Except.error (PyError.keyError k)

/-- load_json's candidate loop (load.py lines 199-206): each candidate is
tried in order with no early exit; an IOError on open is caught and
skipped, a json.loads failure raises ValueError (which nothing catches),
and a parsed document overwrites the accumulator. -/
def load_json_scan (fs : String → ReadResult) :
    List String → Option JDoc → Except PyError (Option JDoc)
  | [], acc => Except.ok acc
  | inpath :: rest, acc =>
      match fs inpath with
      | ReadResult.missing => load_json_scan fs rest acc
      | ReadResult.unparsable => Except.error PyError.valueError
      | ReadResult.parsed d => load_json_scan fs rest (some d)

/-- load_json's per-sample reconstruction (load.py lines 297-328): start
from a fresh null Sample, take stats from the parsed record (KeyError when
the samples section lacks this name), rebuild statsfiles from the
representative record's category keys (KeyError when this record lacks
one), then copy every shared remaining field from the parsed record. -/
def load_json_sample (nullSample : Sample)
    (statsfilesKeys sharedKeys : List String)
    (docSamples : List (String × SampleDoc)) (nm : String) :
    Except PyError Sample := do
  let sdoc ← jfetch nm docSamples
  let sfiles ← statsfilesKeys.mapM (fun k => do
    let d ← jfetch k sdoc.statsfiles
    Except.ok (k, d))
  let others ← sharedKeys.foldlM (fun acc k => do
    let v ← jfetch k sdoc.other
    Except.ok (dinsert k v acc)) nullSample.other
  Except.ok { stats := sdoc.stats, statsfiles := sfiles, other := others }

/-- The continuation of load_json once a parsed document is in hand
(load.py lines 209-336).  `mk` is the current-schema Assembly factory
(`ip.Assembly`), `nullSample` the null Sample factory result
(`ip.Sample()`), and `inpath` the value of the loop variable after the
candidate loop, which is always the LAST candidate path.  The
parameter-setting path (`set_params`, a validation collaborator defined
outside this source) is modelled as dict assignment.  The assembly-level
statsfiles aggregation of lines 314-318 delegates to `build_stat`, also
defined outside this source, and only fills a derived display field this
model does not track, so it is omitted. -/
def load_json_withdoc (mk : String → Assembly) (nullSample : Sample)
    (inpath : String) (doc : JDoc) : Except PyError Assembly :=
  match doc.assembly with
  | JAssemblySection.malformed =>
      -- popping name from a non-mapping raised AttributeError; the
      -- handler (lines 215-219) reports the stale inpath
      Except.error (PyError.ipyradWarningExit
        ("Could not find saved Assembly file (.json) in path: " ++ inpath))
  | JAssemblySection.proper a =>
    let oldname := a.name
    let null0 := mk oldname
    -- lines 227-228: placeholder samples for each listed name
    let samplekeys := a.samples
    -- lines 232-235: set_params for every key except assembly_name
    let params1 :=
      (a.paramsdict.filter (fun p => p.1 != "assembly_name")).foldl
        (fun acc p => dinsert p.1 p.2 acc) null0.paramsdict
    -- lines 239-259: copy every shared remaining root attribute from
    -- the document onto the reference object (the lost-key warning is
    -- a log line with no effect on the result)
    let null1 : Assembly :=
      { null0 with
        paramsdict := params1, version := a.version, dirs := a.dirs,
        populations := a.populations, database := a.database,
        outfiles := a.outfiles, barcodes := a.barcodes }
    -- lines 262-268: schema introspection indexes the first parsed
    -- sample record of the samples section
    match doc.samples.map Prod.fst with
    | [] => Except.error PyError.indexError
    | firstName :: _ =>
      match jfetch firstName doc.samples with
      | Except.error e => Except.error e
      | Except.ok firstSample =>
        let statsfilesKeys := firstSample.statsfiles.map Prod.fst
        let sampleKeys := firstSample.other.map Prod.fst
        -- lines 321-323: shared sample fields minus stats/statsfiles
        let sharedKeys := sampleKeys.filter
          (fun k => (nullSample.other.map Prod.fst).contains k)
        match samplekeys.mapM (fun nm =>
            (load_json_sample nullSample statsfilesKeys sharedKeys
              doc.samples nm).map (fun s => (nm, s))) with
        | Except.error e => Except.error e
        | Except.ok samples => Except.ok { null1 with samples := samples }

/-- load_json (load.py lines 194-336): run the candidate loop, raise
UnboundLocalError when no candidate ever assigned fullj, and otherwise
hand the parsed document to the continuation, with the loop variable
stuck at the last candidate path. -/
def load_json (mk : String → Assembly) (nullSample : Sample)
    (fs : String → ReadResult) (path : String) : Except PyError Assembly :=
  match load_json_scan fs [path, path ++ ".json"] none with
  | Except.error e => Except.error e
  | Except.ok none => Except.error (PyError.unboundLocalError "fullj")
  | Except.ok (some doc) => load_json_withdoc mk nullSample (path ++ ".json") doc

/-! ### Fixtures for the text path -/

/-- The current-schema Assembly factory for the fixtures. -/
def mk0 : String → Assembly := fun n => { ref0 with name := n }

/-- The null Sample of the current schema. -/
def nullSample0 : Sample :=
  { stats := [("reads", "0")], statsfiles := [("s1", [("x", "0")])],
    other := [("files", "")] }

/-- A filesystem holding no text document at all. -/
def missingAllFs : String → ReadResult := fun _ => ReadResult.missing

/-- A well-formed parsed document with an empty samples section. -/
def emptySamplesDoc : JDoc :=
  { assembly := JAssemblySection.proper
      { name := "proj", version := "0.7", dirs := [("project", "/tmp")],
        paramsdict := [("a", "1")], samples := [], populations := "",
        database := "", outfiles := "", barcodes := "" },
    samples := [] }

/-- A filesystem serving the empty-samples document at the literal path. -/
def emptySamplesFs : String → ReadResult :=
  fun n => if n == "proj" then ReadResult.parsed emptySamplesDoc
    else ReadResult.missing

/-! ### Claim theorems for the text path -/

/-- C5 (code bug): when neither the literal path nor the suffixed path
opens, load_json fails with UnboundLocalError on the never-assigned fullj
(line 210) — not with the domain-specific could-not-find error, whose
except clause catches only AttributeError. -/
theorem c5_both_missing_unbound (mk : String → Assembly) (nullSample : Sample)
    (fs : String → ReadResult) (path : String)
    (h1 : fs path = ReadResult.missing)
    (h2 : fs (path ++ ".json") = ReadResult.missing) :
    load_json mk nullSample fs path =
      Except.error (PyError.unboundLocalError "fullj") := by
  have hscan : load_json_scan fs [path, path ++ ".json"] none = Except.ok none := by
    simp [load_json_scan, h1, h2]
  unfold load_json
  rw [hscan]

theorem c5_witness :
    missingAllFs "noexist" = ReadResult.missing ∧
    load_json mk0 nullSample0 missingAllFs "noexist" =
      Except.error (PyError.unboundLocalError "fullj") :=
  ⟨rfl, c5_both_missing_unbound mk0 nullSample0 missingAllFs "noexist" rfl rfl⟩

/-- C6 (code bug): on a well-formed document whose samples section is
empty, load_json raises IndexError at the schema introspection step
(sample_names[0] on an empty list, line 263) instead of returning an
Assembly with an empty samples mapping. -/
theorem c6_empty_samples_raises (mk : String → Assembly) (nullSample : Sample)
    (fs : String → ReadResult) (path : String) (a : AssemblyDoc) (doc : JDoc)
    (h1 : fs path = ReadResult.parsed doc)
    (h2 : fs (path ++ ".json") = ReadResult.missing)
    (ha : doc.assembly = JAssemblySection.proper a)
    (hs : doc.samples = []) :
    load_json mk nullSample fs path = Except.error PyError.indexError := by
  have hscan : load_json_scan fs [path, path ++ ".json"] none
      = Except.ok (some doc) := by
    simp [load_json_scan, h1, h2]
  unfold load_json
  rw [hscan]
  show load_json_withdoc mk nullSample (path ++ ".json") doc
    = Except.error PyError.indexError
  unfold load_json_withdoc
  rw [ha, hs]
  rfl

theorem c6_witness :
    emptySamplesFs "proj" = ReadResult.parsed emptySamplesDoc ∧
    emptySamplesDoc.samples = [] ∧
    load_json mk0 nullSample0 emptySamplesFs "proj" =
      Except.error PyError.indexError :=
  ⟨rfl, rfl,
   c6_empty_samples_raises mk0 nullSample0 emptySamplesFs "proj"
     { name := "proj", version := "0.7", dirs := [("project", "/tmp")],
       paramsdict := [("a", "1")], samples := [], populations := "",
       database := "", outfiles := "", barcodes := "" }
     emptySamplesDoc rfl rfl rfl rfl⟩

end IpyradLoad
